import Mathlib

/-!
Verification of the completion-coordination adapter in `src/index.js`
(`callOnce` and `convertToAsyncStream`).

The coordinator keeps three pieces of mutable state inside the closure of
`convertToAsyncStream`: the flag `is_done` (set by the intercepted "end"
event), the counter `pending` (incremented on each intercepted "data"
emission, decremented when the corresponding per-item completion callback is
invoked), and the single-fire gate `asyncCallback = callOnce(callback)`.
We embed this state machine shallowly: the mutable state becomes the
structure `CoordState`, and every callback invocation that can reach the
coordinator becomes an `Event`; `step` is a direct transcription of the
bodies of the three intercepted listeners, and `run` folds a whole event
sequence from the initial state.  The invocations of the wrapped terminal
callback (`onAllDone`) are recorded in order in the field `calls`, so
"`onAllDone` was called with `x`" is `x ∈ calls`.

The replaced listener-registration method `stream.on` is embedded
separately (`replacedOn`, `convertToAsyncStream`): for a registration with a
given event name it records which calls are forwarded to the saved original
registration function `stramOn` and what the replacement returns.
-/

namespace AsyncStream

/-- Error payloads.  `Option Err` models the JS `err` argument:
`none` is absent/`undefined`, `some e` is a present (truthy) error object. -/
abbrev Err := Nat

/-- The callback invocations that reach the coordinator's closure state:

* `dataArrive` — the wrapped "data" listener runs on a raw item emission
  (`++pending`, then the caller's handler is started with a fresh per-item
  completion callback for this arrival; arrivals are numbered from 0);
* `itemDone i err` — the per-item completion callback of arrival `i` is
  invoked with `err`;
* `endArrive` — the wrapped "end" listener runs (`is_done = true`, then the
  caller's end handler is started with the end completion callback);
* `endDone` — the end handler invokes its (zero-argument) completion;
* `errorArrive e` — the wrapped "error" listener runs with payload `e`
  (the caller's error handler is started with `(e, asyncCallback)`);
* `errorDone err` — the error handler invokes its completion callback,
  which is the gate `asyncCallback` itself, with `err`. -/
inductive Event where
  | dataArrive : Event
  | itemDone : Nat → Option Err → Event
  | endArrive : Event
  | endDone : Event
  | errorArrive : Err → Event
  | errorDone : Option Err → Event
deriving DecidableEq

/-- The coordinator's closure state: `is_done` and `pending` as in the
source, plus the single-fire gate made by `callOnce`: its flag `called` and
the record `calls` of the invocations of the wrapped terminal callback
(in order, each with its argument). -/
structure CoordState where
  is_done : Bool
  pending : Int
  called : Bool
  calls : List (Option Err)
deriving DecidableEq

/-- State at coordinator construction: `is_done = false`, `pending = 0`,
gate not yet fired, terminal callback never invoked. -/
def initState : CoordState := ⟨false, 0, false, []⟩

/-- One invocation of `asyncCallback = callOnce(callback)` with argument
`err`: if the gate's `called` flag is set the call is absorbed; otherwise
the flag is set and the wrapped callback is invoked with this call's
argument (appended to `calls`). -/
def asyncCallback (s : CoordState) (err : Option Err) : CoordState :=
  if s.called then s
  else { s with called := true, calls := s.calls ++ [err] }

/-- One event against the coordinator, transcribing the three intercepted
listeners of `convertToAsyncStream`:

* "data" listener: `++pending`; the per-item completion does `--pending;
  if (err || is_done && !pending) asyncCallback(err)`;
* "end" listener: `is_done = true`; the end completion does
  `if (!pending) asyncCallback()`;
* "error" listener: invokes the caller's handler with `asyncCallback` as
  its completion, so `errorDone err` is exactly `asyncCallback(err)`. -/
def step (s : CoordState) : Event → CoordState
  | .dataArrive => { s with pending := s.pending + 1 }
  | .itemDone _ err =>
      if err.isSome || (s.is_done && s.pending - 1 == 0) then
        asyncCallback { s with pending := s.pending - 1 } err
      else { s with pending := s.pending - 1 }
  | .endArrive => { s with is_done := true }
  | .endDone => if s.pending == 0 then asyncCallback s none else s
  | .errorArrive _ => s
  | .errorDone err => asyncCallback s err

/-- Run a sequence of events from a given state. -/
def runFrom (s : CoordState) (evs : List Event) : CoordState :=
  evs.foldl step s

/-- Run a sequence of events from the freshly constructed coordinator. -/
def run (evs : List Event) : CoordState := runFrom initState evs

/-- Number of raw "data" emissions in an event sequence. -/
def dataCount : List Event → Nat
  | [] => 0
  | .dataArrive :: es => dataCount es + 1
  | _ :: es => dataCount es

/-- Number of per-item completion invocations in an event sequence. -/
def itemDoneCount : List Event → Nat
  | [] => 0
  | .itemDone _ _ :: es => itemDoneCount es + 1
  | _ :: es => itemDoneCount es

/-- Well-formedness of the per-item completions, tracked left to right:
`n` arrivals seen so far, `done` the arrivals already completed.  A
completion `itemDone i _` is admissible only for an arrival that happened
(`i < n`) and whose completion callback has not been invoked before
(`i ∉ done`): each per-item completion function is invoked at most once. -/
def wfItemsAux : Nat → List Nat → List Event → Bool
  | _, _, [] => true
  | n, done, .dataArrive :: es => wfItemsAux (n + 1) done es
  | n, done, .itemDone i _ :: es =>
      decide (i < n) && !(decide (i ∈ done)) && wfItemsAux n (i :: done) es
  | n, done, _ :: es => wfItemsAux n done es

/-- An event sequence in which every per-item completion belongs to an
arrival that already happened and is invoked at most once. -/
def wfItems (evs : List Event) : Bool := wfItemsAux 0 [] evs

/-- `true` iff every `endDone` in the sequence happens after some
`endArrive` (the end handler only completes after the end signal was
intercepted); the flag records whether `endArrive` has been seen. -/
def endDoneAfterEnd : Bool → List Event → Bool
  | _, [] => true
  | _, .endArrive :: es => endDoneAfterEnd true es
  | seen, .endDone :: es => seen && endDoneAfterEnd seen es
  | seen, _ :: es => endDoneAfterEnd seen es

/-- `true` iff no source-error handler completes successfully in the
sequence (no `errorDone none` event). -/
def noErrorHandlerSuccess : List Event → Bool
  | [] => true
  | .errorDone none :: _ => false
  | _ :: es => noErrorHandlerSuccess es

/-- Outcome of one call to the replaced listener-registration method:
which event names were forwarded to the saved original registration
function `stramOn` (each with a wrapping listener), and the identity of the
returned object (`none` = the replacement returns `undefined`). -/
structure OnOutcome where
  delegated : List String
  ret : Option Nat
deriving DecidableEq

/-- A stream object: an identity (modelling JS object identity) and its
listener-registration method, abstracted to the registration outcome for
each event name. -/
structure Stream where
  ident : Nat
  onMethod : String → OnOutcome

/-- The replacement `stream.on` of `convertToAsyncStream`: a `switch` on
the event name with cases `"data"`, `"end"`, `"error"` — each forwarding
the registration (with a wrapping listener) to the saved original
`stramOn` — and no default case; the function body has no return
statement, so every call returns `undefined`. -/
def replacedOn (event : String) : OnOutcome :=
  if event = "data" then { delegated := ["data"], ret := none }
  else if event = "end" then { delegated := ["end"], ret := none }
  else if event = "error" then { delegated := ["error"], ret := none }
  else { delegated := [], ret := none }

/-- `convertToAsyncStream(stream, callback)` replaces `stream.on` with the
interception dispatcher and returns the very stream it was given (the
dynamics of the intercepted listeners are `step`/`run` above). -/
def convertToAsyncStream (stream : Stream) : Stream :=
  { stream with onMethod := replacedOn }

/-- Invariant of the single-fire gate along every run: either the gate has
not fired and the wrapped callback was never invoked, or it has fired and
the wrapped callback was invoked exactly once. -/
def GateInv (s : CoordState) : Prop :=
  (s.called = false ∧ s.calls = []) ∨ (s.called = true ∧ s.calls.length = 1)

theorem asyncCallback_of_called (s : CoordState) (err : Option Err)
    (h : s.called = true) : asyncCallback s err = s := by
  simp [asyncCallback, h]

theorem asyncCallback_of_not_called (s : CoordState) (err : Option Err)
    (h : s.called = false) :
    asyncCallback s err = { s with called := true, calls := s.calls ++ [err] } := by
  simp [asyncCallback, h]

theorem asyncCallback_is_done (s : CoordState) (err : Option Err) :
    (asyncCallback s err).is_done = s.is_done := by
  unfold asyncCallback; split <;> rfl

theorem asyncCallback_pending (s : CoordState) (err : Option Err) :
    (asyncCallback s err).pending = s.pending := by
  unfold asyncCallback; split <;> rfl

theorem asyncCallback_called (s : CoordState) (err : Option Err) :
    (asyncCallback s err).called = true ∨ asyncCallback s err = s := by
  unfold asyncCallback; split
  · right; rfl
  · left; rfl

theorem gateInv_init : GateInv initState := Or.inl ⟨rfl, rfl⟩

theorem gateInv_asyncCallback (s : CoordState) (err : Option Err)
    (h : GateInv s) : GateInv (asyncCallback s err) := by
  rcases h with ⟨h1, h2⟩ | ⟨h1, h2⟩
  · right; simp [asyncCallback, h1, h2]
  · rw [asyncCallback_of_called s err h1]; right; exact ⟨h1, h2⟩

theorem gateInv_step (s : CoordState) (e : Event) (h : GateInv s) :
    GateInv (step s e) := by
  cases e with
  | dataArrive => exact h
  | itemDone i err =>
      simp only [step]; split
      · exact gateInv_asyncCallback _ _ h
      · exact h
  | endArrive => exact h
  | endDone =>
      simp only [step]; split
      · exact gateInv_asyncCallback _ _ h
      · exact h
  | errorArrive e => exact h
  | errorDone err => exact gateInv_asyncCallback _ _ h

theorem runFrom_nil (s : CoordState) : runFrom s [] = s := rfl

theorem runFrom_cons (s : CoordState) (e : Event) (evs : List Event) :
    runFrom s (e :: evs) = runFrom (step s e) evs := rfl

theorem runFrom_append (s : CoordState) (l1 l2 : List Event) :
    runFrom s (l1 ++ l2) = runFrom (runFrom s l1) l2 := by
  simp [runFrom, List.foldl_append]

theorem gateInv_runFrom (s : CoordState) (evs : List Event) (h : GateInv s) :
    GateInv (runFrom s evs) := by
  induction evs generalizing s with
  | nil => exact h
  | cons e es ih => exact ih _ (gateInv_step s e h)

theorem gateInv_run (evs : List Event) : GateInv (run evs) :=
  gateInv_runFrom _ _ gateInv_init

theorem calls_nil_of_not_called (s : CoordState) (hInv : GateInv s)
    (h : s.called = false) : s.calls = [] := by
  rcases hInv with ⟨_, h2⟩ | ⟨h1, _⟩
  · exact h2
  · rw [h] at h1; cases h1

theorem step_called_calls (s : CoordState) (e : Event) (h : s.called = true) :
    (step s e).called = true ∧ (step s e).calls = s.calls := by
  cases e with
  | dataArrive => exact ⟨h, rfl⟩
  | itemDone i err =>
      simp only [step]; split
      · rw [asyncCallback_of_called { s with pending := s.pending - 1 } err h]
        exact ⟨h, rfl⟩
      · exact ⟨h, rfl⟩
  | endArrive => exact ⟨h, rfl⟩
  | endDone =>
      simp only [step]; split
      · rw [asyncCallback_of_called s none h]; exact ⟨h, rfl⟩
      · exact ⟨h, rfl⟩
  | errorArrive e => exact ⟨h, rfl⟩
  | errorDone err =>
      simp only [step]; rw [asyncCallback_of_called s err h]; exact ⟨h, rfl⟩

theorem runFrom_of_called (s : CoordState) (evs : List Event)
    (h : s.called = true) :
    (runFrom s evs).called = true ∧ (runFrom s evs).calls = s.calls := by
  induction evs generalizing s with
  | nil => exact ⟨h, rfl⟩
  | cons e es ih =>
      have hs := step_called_calls s e h
      have hr := ih (step s e) hs.1
      exact ⟨hr.1, hs.2 ▸ hr.2⟩

theorem step_is_done_mono (s : CoordState) (e : Event) (h : s.is_done = true) :
    (step s e).is_done = true := by
  cases e with
  | dataArrive => exact h
  | itemDone i err =>
      simp only [step]; split
      · rw [asyncCallback_is_done]; exact h
      · exact h
  | endArrive => rfl
  | endDone =>
      simp only [step]; split
      · rw [asyncCallback_is_done]; exact h
      · exact h
  | errorArrive e => exact h
  | errorDone err => simp only [step]; rw [asyncCallback_is_done]; exact h

theorem runFrom_is_done_mono (s : CoordState) (evs : List Event)
    (h : s.is_done = true) : (runFrom s evs).is_done = true := by
  induction evs generalizing s with
  | nil => exact h
  | cons e es ih => exact ih _ (step_is_done_mono s e h)

theorem is_done_of_endArrive_mem (s : CoordState) (evs : List Event)
    (h : Event.endArrive ∈ evs) : (runFrom s evs).is_done = true := by
  induction evs generalizing s with
  | nil => cases h
  | cons e es ih =>
      rcases List.mem_cons.mp h with he | hmem
      · rw [runFrom_cons, ← he]
        exact runFrom_is_done_mono _ es rfl
      · exact ih _ hmem

theorem step_pending_itemDone (s : CoordState) (i : Nat) (err : Option Err) :
    (step s (.itemDone i err)).pending = s.pending - 1 := by
  simp only [step]; split
  · rw [asyncCallback_pending]
  · rfl

theorem step_pending_endDone (s : CoordState) :
    (step s .endDone).pending = s.pending := by
  simp only [step]; split
  · rw [asyncCallback_pending]
  · rfl

theorem runFrom_pending (s : CoordState) (evs : List Event) :
    (runFrom s evs).pending
      = s.pending + (dataCount evs : Int) - (itemDoneCount evs : Int) := by
  induction evs generalizing s with
  | nil => simp [runFrom, dataCount, itemDoneCount]
  | cons e es ih =>
      rw [runFrom_cons, ih]
      cases e with
      | dataArrive =>
          simp only [step, dataCount, itemDoneCount]
          push_cast; ring
      | itemDone i err =>
          rw [step_pending_itemDone]
          simp only [dataCount, itemDoneCount]
          push_cast; ring
      | endArrive => simp only [step, dataCount, itemDoneCount]
      | endDone =>
          rw [step_pending_endDone]
          simp only [dataCount, itemDoneCount]
      | errorArrive e => simp only [step, dataCount, itemDoneCount]
      | errorDone err =>
          simp only [step, asyncCallback_pending, dataCount, itemDoneCount]

theorem wfItemsAux_count (evs : List Event) :
    ∀ (n : Nat) (done : List Nat), wfItemsAux n done evs = true → done.Nodup →
      (∀ i ∈ done, i < n) →
      done.length + itemDoneCount evs ≤ n + dataCount evs := by
  induction evs with
  | nil =>
      intro n done _ hnd hlt
      simp only [itemDoneCount, dataCount, Nat.add_zero]
      calc done.length = done.toFinset.card := (List.toFinset_card_of_nodup hnd).symm
        _ ≤ (Finset.range n).card := Finset.card_le_card
              (fun i hi => Finset.mem_range.mpr (hlt i (List.mem_toFinset.mp hi)))
        _ = n := Finset.card_range n
  | cons e es ih =>
      intro n done hwf hnd hlt
      cases e with
      | dataArrive =>
          have hrec := ih (n + 1) done hwf hnd
            (fun i hi => Nat.lt_succ_of_lt (hlt i hi))
          simp only [dataCount, itemDoneCount] at hrec ⊢
          omega
      | itemDone i err =>
          simp only [wfItemsAux, Bool.and_eq_true, Bool.not_eq_true',
            decide_eq_true_eq, decide_eq_false_iff_not] at hwf
          obtain ⟨⟨hi, hnm⟩, hwf'⟩ := hwf
          have hnd' : (i :: done).Nodup := List.nodup_cons.mpr ⟨hnm, hnd⟩
          have hlt' : ∀ j ∈ i :: done, j < n := by
            intro j hj
            rcases List.mem_cons.mp hj with hji | hj
            · exact hji ▸ hi
            · exact hlt j hj
          have hrec := ih n (i :: done) hwf' hnd' hlt'
          simp only [dataCount, itemDoneCount, List.length_cons] at hrec ⊢
          omega
      | endArrive =>
          have hrec := ih n done hwf hnd hlt
          simp only [dataCount, itemDoneCount] at hrec ⊢
          omega
      | endDone =>
          have hrec := ih n done hwf hnd hlt
          simp only [dataCount, itemDoneCount] at hrec ⊢
          omega
      | errorArrive e =>
          have hrec := ih n done hwf hnd hlt
          simp only [dataCount, itemDoneCount] at hrec ⊢
          omega
      | errorDone err =>
          have hrec := ih n done hwf hnd hlt
          simp only [dataCount, itemDoneCount] at hrec ⊢
          omega

theorem runFrom_asyncCallback_absorb (s : CoordState) (err : Option Err)
    (post : List Event) (h : s.called = false) :
    (runFrom (asyncCallback s err) post).calls = s.calls ++ [err] := by
  have h1 : (asyncCallback s err).called = true := by
    rw [asyncCallback_of_not_called s err h]
  have h2 : (asyncCallback s err).calls = s.calls ++ [err] := by
    rw [asyncCallback_of_not_called s err h]
  rw [(runFrom_of_called _ post h1).2, h2]

theorem endDoneAfterEnd_mem (evs : List Event) :
    ∀ seen : Bool, endDoneAfterEnd seen (evs ++ [Event.endDone]) = true →
      seen = true ∨ Event.endArrive ∈ evs := by
  induction evs with
  | nil =>
      intro seen h
      left
      have h' : (seen && endDoneAfterEnd seen []) = true := h
      simpa [endDoneAfterEnd] using h'
  | cons e es ih =>
      intro seen h
      cases e with
      | endArrive => exact Or.inr (List.mem_cons_self _ _)
      | endDone =>
          have h' : (seen && endDoneAfterEnd seen (es ++ [Event.endDone])) = true := h
          simp only [Bool.and_eq_true] at h'
          exact Or.inl h'.1
      | dataArrive =>
          rcases ih seen h with hs | hm
          · exact Or.inl hs
          · exact Or.inr (List.mem_cons_of_mem _ hm)
      | itemDone i err =>
          rcases ih seen h with hs | hm
          · exact Or.inl hs
          · exact Or.inr (List.mem_cons_of_mem _ hm)
      | errorArrive v =>
          rcases ih seen h with hs | hm
          · exact Or.inl hs
          · exact Or.inr (List.mem_cons_of_mem _ hm)
      | errorDone err =>
          rcases ih seen h with hs | hm
          · exact Or.inl hs
          · exact Or.inr (List.mem_cons_of_mem _ hm)

theorem noErrorHandlerSuccess_append (l1 l2 : List Event) :
    noErrorHandlerSuccess (l1 ++ Event.errorDone none :: l2) = false := by
  induction l1 with
  | nil => rfl
  | cons e es ih =>
      cases e with
      | dataArrive => exact ih
      | itemDone i err => exact ih
      | endArrive => exact ih
      | endDone => exact ih
      | errorArrive v => exact ih
      | errorDone err =>
          cases err with
          | none => rfl
          | some v => exact ih

/-- C1: the terminal callback is invoked at most once per coordinator.
Along every event sequence the wrapped callback runs at most once; the
first call to the gate `asyncCallback` (from any path, in any order)
invokes the wrapped callback with that call's argument, and every call
made after the gate has fired, with any argument, is silently absorbed. -/
theorem callOnce_single_fire :
    (∀ evs : List Event, (run evs).calls.length ≤ 1) ∧
    (∀ (s : CoordState) (a : Option Err), s.called = false →
      asyncCallback s a = { s with called := true, calls := s.calls ++ [a] }) ∧
    (∀ (s : CoordState) (a : Option Err), s.called = true →
      asyncCallback s a = s) := by
  refine ⟨?_, asyncCallback_of_not_called, asyncCallback_of_called⟩
  intro evs
  rcases gateInv_run evs with ⟨_, h⟩ | ⟨_, h⟩ <;> simp [h]

/-- Witness for C1: a run where two completion paths race (end with zero
pending, then an error completion), a first firing, and an absorbed call. -/
theorem callOnce_single_fire_witness :
    (run [Event.endArrive, Event.endDone, Event.errorDone (some 3)]).calls.length ≤ 1 ∧
    asyncCallback ⟨false, 0, false, []⟩ none = ⟨false, 0, true, [none]⟩ ∧
    asyncCallback ⟨false, 0, true, [none]⟩ (some 2) = ⟨false, 0, true, [none]⟩ :=
  ⟨callOnce_single_fire.1 [Event.endArrive, Event.endDone, Event.errorDone (some 3)],
   callOnce_single_fire.2.1 ⟨false, 0, false, []⟩ none rfl,
   callOnce_single_fire.2.2 ⟨false, 0, true, [none]⟩ (some 2) rfl⟩

/-- C2 as stated is false on the code: if an earlier completion path has
already fired the gate, a later per-item completion with a present error
is absorbed and `onAllDone` never receives that error.  Concretely, two
items both complete with errors `1` and `2`; the trace contains the
per-item completion with present error `2`, yet the terminal callback
receives only the first error `1` and never error `2`. -/
theorem itemDone_error_not_always_delivered :
    Event.itemDone 1 (some 2) ∈
      [Event.dataArrive, Event.dataArrive, Event.itemDone 0 (some 1),
        Event.itemDone 1 (some 2)] ∧
    (run [Event.dataArrive, Event.dataArrive, Event.itemDone 0 (some 1),
        Event.itemDone 1 (some 2)]).calls.count (some 2) = 0 ∧
    (run [Event.dataArrive, Event.dataArrive, Event.itemDone 0 (some 1),
        Event.itemDone 1 (some 2)]).calls = [some 1] := by
  decide

/-- C2 amended: a per-item completion with a present error invokes the
gate with that error at that invocation, regardless of the pending count
and of the exhaustion flag; and provided the gate has not already fired
before that invocation, `onAllDone` receives exactly that error once —
every later attempt is absorbed. -/
theorem itemDone_error_fires_gate :
    (∀ (s : CoordState) (i : Nat) (e : Err),
      step s (Event.itemDone i (some e))
        = asyncCallback { s with pending := s.pending - 1 } (some e)) ∧
    (∀ (pre : List Event) (i : Nat) (e : Err) (post : List Event),
      (run pre).called = false →
      (run (pre ++ Event.itemDone i (some e) :: post)).calls = [some e]) := by
  refine ⟨fun s i e => rfl, ?_⟩
  intro pre i e post hnc
  have hnil := calls_nil_of_not_called _ (gateInv_run pre) hnc
  have hsplit : run (pre ++ Event.itemDone i (some e) :: post)
      = runFrom (step (run pre) (Event.itemDone i (some e))) post :=
    runFrom_append initState pre (Event.itemDone i (some e) :: post)
  rw [hsplit,
    show step (run pre) (Event.itemDone i (some e))
        = asyncCallback { run pre with pending := (run pre).pending - 1 } (some e)
      from rfl,
    runFrom_asyncCallback_absorb
      { run pre with pending := (run pre).pending - 1 } (some e) post hnc]
  show (run pre).calls ++ [some e] = [some e]
  rw [hnil]; rfl

/-- Witness for C2 (amended): an item error with one handler still pending
and before the end signal fires the gate with that error; the later
completions and the end path are absorbed. -/
theorem itemDone_error_fires_gate_witness :
    step initState (Event.itemDone 0 (some 4))
        = asyncCallback { initState with pending := initState.pending - 1 } (some 4) ∧
    (run ([Event.dataArrive, Event.dataArrive] ++ Event.itemDone 0 (some 5) ::
        [Event.itemDone 1 none, Event.endArrive, Event.endDone])).calls = [some 5] :=
  ⟨itemDone_error_fires_gate.1 initState 0 4,
   itemDone_error_fires_gate.2 [Event.dataArrive, Event.dataArrive] 0 5
     [Event.itemDone 1 none, Event.endArrive, Event.endDone] (by decide)⟩

/-- C3: when the end signal has latched (`is_done`), the gate has not yet
fired, and exactly one per-item handler is still outstanding, the next
per-item completion without error — the completion that first observes
exhaustion latched and pending equal to zero — fires the gate with no
error; nothing was delivered before it and nothing else is delivered
after it, whatever events follow. -/
theorem last_pending_completion_fires_success (pre : List Event) (i : Nat)
    (post : List Event)
    (hnc : (run pre).called = false)
    (hdone : (run pre).is_done = true)
    (hpend : (run pre).pending = 1) :
    (run pre).calls = [] ∧
    (run (pre ++ Event.itemDone i none :: post)).calls = [none] := by
  have hnil := calls_nil_of_not_called _ (gateInv_run pre) hnc
  refine ⟨hnil, ?_⟩
  have hsplit : run (pre ++ Event.itemDone i none :: post)
      = runFrom (step (run pre) (Event.itemDone i none)) post :=
    runFrom_append initState pre (Event.itemDone i none :: post)
  have hcond : ((none : Option Err).isSome
      || ((run pre).is_done && (run pre).pending - 1 == 0)) = true := by
    rw [hdone, hpend]; rfl
  have hstep : step (run pre) (Event.itemDone i none)
      = asyncCallback { run pre with pending := (run pre).pending - 1 } none := by
    simp only [step]
    rw [if_pos hcond]
  rw [hsplit, hstep,
    runFrom_asyncCallback_absorb
      { run pre with pending := (run pre).pending - 1 } none post hnc]
  show (run pre).calls ++ [none] = [none]
  rw [hnil]; rfl

/-- Witness for C3: Scenario C of the specification — three items arrive,
one completes, the end signal arrives and its handler completes while two
are still pending, the two pending items then complete successfully; the
terminal callback fires once with no error at the second completion. -/
theorem last_pending_completion_fires_success_witness :
    (run [Event.dataArrive, Event.dataArrive, Event.dataArrive,
        Event.itemDone 0 none, Event.endArrive, Event.endDone,
        Event.itemDone 1 none]).calls = [] ∧
    (run ([Event.dataArrive, Event.dataArrive, Event.dataArrive,
        Event.itemDone 0 none, Event.endArrive, Event.endDone,
        Event.itemDone 1 none] ++ Event.itemDone 2 none :: [])).calls = [none] :=
  last_pending_completion_fires_success
    [Event.dataArrive, Event.dataArrive, Event.dataArrive,
      Event.itemDone 0 none, Event.endArrive, Event.endDone,
      Event.itemDone 1 none] 2 [] (by decide) (by decide) (by decide)

/-- C4: intercepting the end signal sets the exhaustion flag (the end
handler is then run with the zero-argument completion `endDone`); when the
end handler completes with the pending count at zero, the gate is invoked
with no error, and if the gate has not fired before, `onAllDone` receives
the success outcome exactly once; in particular, with zero items ever
emitted, end followed by its handler's completion delivers success. -/
theorem end_signal_zero_pending_fires_success :
    (∀ s : CoordState, step s Event.endArrive = { s with is_done := true }) ∧
    (∀ s : CoordState, s.pending = 0 → step s Event.endDone = asyncCallback s none) ∧
    (∀ pre post : List Event, (run pre).pending = 0 → (run pre).called = false →
      (run (pre ++ Event.endDone :: post)).calls = [none]) ∧
    (run [Event.endArrive, Event.endDone]).calls = [none] := by
  refine ⟨fun s => rfl, ?_, ?_, by decide⟩
  · intro s hp
    have hcond : (s.pending == 0) = true := by rw [hp]; rfl
    simp only [step]
    rw [if_pos hcond]
  · intro pre post hp hnc
    have hnil := calls_nil_of_not_called _ (gateInv_run pre) hnc
    have hcond : ((run pre).pending == 0) = true := by rw [hp]; rfl
    have hstep : step (run pre) Event.endDone = asyncCallback (run pre) none := by
      simp only [step]
      rw [if_pos hcond]
    have hsplit : run (pre ++ Event.endDone :: post)
        = runFrom (step (run pre) Event.endDone) post :=
      runFrom_append initState pre (Event.endDone :: post)
    rw [hsplit, hstep, runFrom_asyncCallback_absorb (run pre) none post hnc, hnil]
    rfl

/-- Witness for C4: Scenario A — the end signal arrives with zero items
ever emitted and its handler completes; success is delivered once. -/
theorem end_signal_zero_pending_fires_success_witness :
    step initState Event.endDone = asyncCallback initState none ∧
    (run ([Event.endArrive] ++ Event.endDone :: [])).calls = [none] :=
  ⟨end_signal_zero_pending_fires_success.2.1 initState rfl,
   end_signal_zero_pending_fires_success.2.2.1 [Event.endArrive] [] (by decide) (by decide)⟩

/-- C5 as stated is false on the code: through the source-error path a
success outcome can be delivered while a per-item handler is still
outstanding.  Concretely: one item arrives (one handler pending), the
source emits an error, and the caller's error handler completes without
an error — its completion callback is the gate itself, so `onAllDone`
receives success while `pending = 1` and the end signal was never seen. -/
theorem success_fire_while_pending_via_error_handler :
    (run [Event.dataArrive, Event.errorArrive 0, Event.errorDone none]).calls = [none] ∧
    (run [Event.dataArrive, Event.errorArrive 0, Event.errorDone none]).pending = 1 ∧
    (run [Event.dataArrive, Event.errorArrive 0, Event.errorDone none]).is_done = false := by
  decide

/-- C5 amended: in every event sequence in which end-handler completions
occur only after the end signal and no source-error handler completes
successfully, a success (no-error) delivery of the terminal callback can
only occur at a step after which the exhaustion flag is set and the
pending count is zero — no success is reported while a per-item handler is
still outstanding.  (The source-error path is the one exception the code
allows, shown in the counterexample.) -/
theorem success_fire_requires_drained (evs : List Event) (e : Event)
    (hend : endDoneAfterEnd false (evs ++ [e]) = true)
    (hnoerr : noErrorHandlerSuccess (evs ++ [e]) = true)
    (hbefore : (run evs).calls = [])
    (hafter : (run (evs ++ [e])).calls = [none]) :
    (run (evs ++ [e])).is_done = true ∧ (run (evs ++ [e])).pending = 0 := by
  have hsplit : run (evs ++ [e]) = step (run evs) e :=
    runFrom_append initState evs [e]
  rw [hsplit] at hafter ⊢
  cases e with
  | dataArrive =>
      exfalso
      have h' : (run evs).calls = [none] := hafter
      rw [hbefore] at h'
      simp at h'
  | endArrive =>
      exfalso
      have h' : (run evs).calls = [none] := hafter
      rw [hbefore] at h'
      simp at h'
  | errorArrive v =>
      exfalso
      have h' : (run evs).calls = [none] := hafter
      rw [hbefore] at h'
      simp at h'
  | itemDone i err =>
      by_cases hc : (err.isSome || ((run evs).is_done && (run evs).pending - 1 == 0)) = true
      · have hstep : step (run evs) (Event.itemDone i err)
            = asyncCallback { run evs with pending := (run evs).pending - 1 } err := by
          simp only [step]
          rw [if_pos hc]
        rw [hstep] at hafter ⊢
        by_cases hcalled : (run evs).called = true
        · exfalso
          rw [asyncCallback_of_called
            { run evs with pending := (run evs).pending - 1 } err hcalled] at hafter
          have h' : (run evs).calls = [none] := hafter
          rw [hbefore] at h'
          simp at h'
        · have hcf : (run evs).called = false := by
            simpa using hcalled
          rw [asyncCallback_of_not_called
            { run evs with pending := (run evs).pending - 1 } err hcf] at hafter ⊢
          have h' : (run evs).calls ++ [err] = [none] := hafter
          rw [hbefore] at h'
          have herr : err = none := by simpa using h'
          subst herr
          simp only [Option.isSome_none, Bool.false_or, Bool.and_eq_true,
            beq_iff_eq] at hc
          exact ⟨hc.1, hc.2⟩
      · exfalso
        have hstep : step (run evs) (Event.itemDone i err)
            = { run evs with pending := (run evs).pending - 1 } := by
          simp only [step]
          rw [if_neg hc]
        rw [hstep] at hafter
        have h' : (run evs).calls = [none] := hafter
        rw [hbefore] at h'
        simp at h'
  | endDone =>
      by_cases hc : ((run evs).pending == 0) = true
      · have hstep : step (run evs) Event.endDone = asyncCallback (run evs) none := by
          simp only [step]
          rw [if_pos hc]
        rw [hstep] at hafter ⊢
        have hdone : (run evs).is_done = true := by
          rcases endDoneAfterEnd_mem evs false hend with hf | hmem
          · cases hf
          · exact is_done_of_endArrive_mem initState evs hmem
        refine ⟨?_, ?_⟩
        · rw [asyncCallback_is_done]
          exact hdone
        · rw [asyncCallback_pending]
          simpa using hc
      · exfalso
        have hstep : step (run evs) Event.endDone = run evs := by
          simp only [step]
          rw [if_neg hc]
        rw [hstep] at hafter
        rw [hbefore] at hafter
        simp at hafter
  | errorDone err =>
      exfalso
      by_cases hcalled : (run evs).called = true
      · rw [show step (run evs) (Event.errorDone err) = asyncCallback (run evs) err from rfl,
          asyncCallback_of_called (run evs) err hcalled] at hafter
        rw [hbefore] at hafter
        simp at hafter
      · have hcf : (run evs).called = false := by simpa using hcalled
        rw [show step (run evs) (Event.errorDone err) = asyncCallback (run evs) err from rfl,
          asyncCallback_of_not_called (run evs) err hcf] at hafter
        have h' : (run evs).calls ++ [err] = [none] := hafter
        rw [hbefore] at h'
        have herr : err = none := by simpa using h'
        subst herr
        have hfalse := noErrorHandlerSuccess_append evs []
        rw [hfalse] at hnoerr
        cases hnoerr

/-- Witness for C5 (amended): Scenario C's final completion — the firing
step indeed lands in a state with the exhaustion flag set and zero
pending handlers. -/
theorem success_fire_requires_drained_witness :
    (run ([Event.dataArrive, Event.endArrive, Event.endDone]
        ++ [Event.itemDone 0 none])).is_done = true ∧
    (run ([Event.dataArrive, Event.endArrive, Event.endDone]
        ++ [Event.itemDone 0 none])).pending = 0 :=
  success_fire_requires_drained [Event.dataArrive, Event.endArrive, Event.endDone]
    (Event.itemDone 0 none) (by decide) (by decide) (by decide) (by decide)

/-- C6: when the source emits an error, the caller's error handler runs
with the gate's fire operation as its completion callback — the handler's
completion `errorDone err` is exactly `asyncCallback(err)` — so, provided
the gate has not fired before, whatever the handler signals becomes the
sole value ever delivered to `onAllDone`, whatever events follow. -/
theorem error_handler_completion_is_terminal :
    (∀ (s : CoordState) (err : Option Err),
      step s (Event.errorDone err) = asyncCallback s err) ∧
    (∀ (pre : List Event) (x : Option Err) (post : List Event),
      (run pre).called = false →
      (run (pre ++ Event.errorDone x :: post)).calls = [x]) := by
  refine ⟨fun s err => rfl, ?_⟩
  intro pre x post hnc
  have hnil := calls_nil_of_not_called _ (gateInv_run pre) hnc
  have hsplit : run (pre ++ Event.errorDone x :: post)
      = runFrom (step (run pre) (Event.errorDone x)) post :=
    runFrom_append initState pre (Event.errorDone x :: post)
  rw [hsplit,
    show step (run pre) (Event.errorDone x) = asyncCallback (run pre) x from rfl,
    runFrom_asyncCallback_absorb (run pre) x post hnc, hnil]
  rfl

/-- Witness for C6: the source errors with payload 7, the handler
completes with that error, and it is the sole terminal outcome. -/
theorem error_handler_completion_is_terminal_witness :
    step initState (Event.errorDone (some 9)) = asyncCallback initState (some 9) ∧
    (run ([Event.errorArrive 7] ++ Event.errorDone (some 7) :: [])).calls = [some 7] :=
  ⟨error_handler_completion_is_terminal.1 initState (some 9),
   error_handler_completion_is_terminal.2 [Event.errorArrive 7] (some 7) [] (by decide)⟩

/-- C7: in every event sequence whose per-item completions each belong to
an arrival that happened and are invoked at most once, the pending counter
equals the number of intercepted item emissions minus the number of
per-item completions (incremented once per emission, decremented once per
completion), and it never becomes negative. -/
theorem pending_counts_outstanding_handlers (evs : List Event)
    (h : wfItems evs = true) :
    (run evs).pending = (dataCount evs : Int) - (itemDoneCount evs : Int) ∧
      0 ≤ (run evs).pending := by
  have h1 := runFrom_pending initState evs
  have hinit : initState.pending = 0 := rfl
  rw [hinit] at h1
  have h2 := wfItemsAux_count evs 0 [] h List.nodup_nil (by intro i hi; cases hi)
  simp only [List.length_nil, Nat.zero_add, Nat.add_zero] at h2
  constructor
  · rw [show run evs = runFrom initState evs from rfl, h1]
    omega
  · rw [show run evs = runFrom initState evs from rfl, h1]
    omega

/-- Witness for C7: two arrivals, one completion — the counter is one and
non-negative. -/
theorem pending_counts_outstanding_handlers_witness :
    (run [Event.dataArrive, Event.dataArrive, Event.itemDone 1 none]).pending
        = (dataCount [Event.dataArrive, Event.dataArrive, Event.itemDone 1 none] : Int)
          - (itemDoneCount [Event.dataArrive, Event.dataArrive, Event.itemDone 1 none] : Int) ∧
      0 ≤ (run [Event.dataArrive, Event.dataArrive, Event.itemDone 1 none]).pending :=
  pending_counts_outstanding_handlers
    [Event.dataArrive, Event.dataArrive, Event.itemDone 1 none] (by decide)

/-- C8 as stated is false on the code: the `switch` in the replaced
registration method has no default case, so registering a listener for an
event kind other than "data", "end" or "error" — here "close" — is not
delegated to the underlying source's original registration method: no call
to the saved original `on` is made at all. -/
theorem other_events_not_delegated :
    "close" ≠ "data" ∧ "close" ≠ "end" ∧ "close" ≠ "error" ∧
    ((convertToAsyncStream ⟨0, fun _ => ⟨[], none⟩⟩).onMethod "close").delegated = [] :=
  ⟨by decide, by decide, by decide, rfl⟩

/-- C8 amended: for every listener registration against the wrapped source
with an event kind other than the three intercepted kinds, the
registration is silently dropped — the replaced method forwards nothing to
the original registration method and returns `undefined`. -/
theorem other_events_ignored (event : String)
    (h1 : event ≠ "data") (h2 : event ≠ "end") (h3 : event ≠ "error") :
    ∀ s : Stream, ((convertToAsyncStream s).onMethod event).delegated = []
      ∧ ((convertToAsyncStream s).onMethod event).ret = none := by
  intro s
  show (replacedOn event).delegated = [] ∧ (replacedOn event).ret = none
  rw [replacedOn, if_neg h1, if_neg h2, if_neg h3]
  exact ⟨rfl, rfl⟩

/-- Witness for C8 (amended): a "close" registration on a concrete wrapped
stream forwards nothing and returns `undefined`. -/
theorem other_events_ignored_witness :
    ((convertToAsyncStream ⟨5, fun _ => ⟨[], none⟩⟩).onMethod "close").delegated = []
      ∧ ((convertToAsyncStream ⟨5, fun _ => ⟨[], none⟩⟩).onMethod "close").ret = none :=
  other_events_ignored "close" (by decide) (by decide) (by decide)
    ⟨5, fun _ => ⟨[], none⟩⟩

/-- C9: `convertToAsyncStream` returns the very stream object it was
passed — its identity is unchanged, every field other than the
listener-registration method is untouched — with the registration method
replaced by the interception dispatcher, so the result can be chained. -/
theorem convertToAsyncStream_returns_same_stream (s : Stream) :
    (convertToAsyncStream s).ident = s.ident ∧
    (convertToAsyncStream s).onMethod = replacedOn :=
  ⟨rfl, rfl⟩

/-- C10: the replaced listener-registration method has no return
statement: for every event name, registering on the wrapped stream
returns `undefined` (never the source object), so registrations on the
wrapped source cannot themselves be chained. -/
theorem replaced_on_returns_undefined (s : Stream) (event : String) :
    ((convertToAsyncStream s).onMethod event).ret = none := by
  show (replacedOn event).ret = none
  rw [replacedOn]
  split
  · rfl
  · split
    · rfl
    · split
      · rfl
      · rfl

end AsyncStream
